import Mathlib

/-!
A shallow embedding of the live audio conversation component
(src/components/LiveConversation.tsx): the session state held in the React
refs and hooks, the createBlob PCM conversion, the stopConversation teardown,
the startConversation guard, and the transport callbacks (onmessage, onopen,
onclose, onerror), together with theorems about playback scheduling,
interruption handling, teardown and the transcript log.

Modelling conventions: the output audio clock value (outputCtx.currentTime)
observed while a message handler runs is passed as an explicit rational
argument; decoded buffer durations are rationals; media tracks and buffer
source nodes live in indexed lists playing the role of the heap, so that
facts about objects survive the component dropping its references to them.
The closure variable currentTranscription captured by the connect callbacks
is stored in the Session value, since in the source it is frozen at the
render that invoked startConversation.
-/

namespace LiveConv

/-- The four values of the ConversationState union type in the source. -/
inductive CState where
  | idle
  | connecting
  | listening
  | error
deriving DecidableEq

/-- An AudioContext object: all the model needs is whether close() ran. -/
structure Ctx where
  closed : Bool
deriving DecidableEq

/-- An AudioBufferSourceNode: the playback start time passed to start(),
and whether stop() has been called on it. -/
structure Node where
  start : ℚ
  stopped : Bool
deriving DecidableEq

/-- The live session handle. It carries the value of the closure variable
currentTranscription captured when the connect callbacks were created. -/
structure Session where
  captured : String × String
deriving DecidableEq

/-- One LiveServerMessage, with the inline audio payload abstracted to the
duration of its decoded buffer. -/
structure Msg where
  inputTranscription : Option String
  outputTranscription : Option String
  turnComplete : Bool
  audioDuration : Option ℚ
  interrupted : Bool
deriving DecidableEq

/-- The component state: React state hooks, the refs, and the track and
node heaps (indexed by position; a ref to a stream is a list of track ids,
the sources set is a list of node ids). -/
structure S where
  cs : CState
  transcriptions : List (String × String)
  current : String × String
  session : Option Session
  mediaStream : Option (List Nat)
  audioCtx : Option Ctx
  scriptProcessor : Option Bool
  outputCtx : Option Ctx
  nextStartTime : ℚ
  sources : List Nat
  animationFrame : Option Nat
  tracks : List Bool
  nodes : List Node
deriving DecidableEq

/-- Apply f to every list element whose index (counting from i) is in ids;
models calling a method on each heap object referenced from a set. -/
def mark (ids : List Nat) (f : α → α) : Nat → List α → List α
  | _, [] => []
  | i, x :: xs => (if i ∈ ids then f x else x) :: mark ids f (i + 1) xs

/-- The effect of stopping a source node. -/
def stopNode (n : Node) : Node :=
  { n with stopped := true }

/-- The initial component state: every ref null, every hook at its
useState initial value. -/
def initS : S :=
  { cs := .idle
    transcriptions := []
    current := ("", "")
    session := none
    mediaStream := none
    audioCtx := none
    scriptProcessor := none
    outputCtx := none
    nextStartTime := 0
    sources := []
    animationFrame := none
    tracks := []
    nodes := [] }

/-- JavaScript number truncation toward zero, as performed by ToInt16. -/
def jsTrunc (v : ℚ) : ℤ :=
  if 0 ≤ v then ⌊v⌋ else ⌈v⌉

/-- The JavaScript ToInt16 conversion applied when assigning into an
Int16Array: truncate toward zero, reduce modulo 2 ^ 16, reinterpret the
residue as a signed 16-bit value. No clamping. -/
def jsToInt16 (v : ℚ) : ℤ :=
  let m := jsTrunc v % 65536
  if m < 32768 then m else m - 65536

/-- The outbound frame built by createBlob. The data field holds the
Int16Array contents; the base64 transport encoding applied afterwards
(audioUtils.encode, outside this component) is injective and omitted. -/
structure PcmBlob where
  data : List ℤ
  mimeType : String
deriving DecidableEq

/-- createBlob from the source: int16[i] = data[i] * 32768 for each index,
then the frame is tagged audio/pcm;rate=16000. -/
def createBlob (data : List ℚ) : PcmBlob :=
  { data := data.map (fun s => jsToInt16 (s * 32768))
    mimeType := "audio/pcm;rate=16000" }

/-- The first two branches of onmessage: appending partial input and output
transcription text onto the pending pair, via functional state updates. -/
def applyTranscripts (m : Msg) (s : S) : S :=
  let s1 :=
    match m.inputTranscription with
    | some t => { s with current := (s.current.1 ++ t, s.current.2) }
    | none => s
  match m.outputTranscription with
  | some t => { s1 with current := (s1.current.1, s1.current.2 ++ t) }
  | none => s1

/-- The turnComplete branch of onmessage: append the closure-captured
currentTranscription value and reset the pending pair. -/
def applyTurnComplete (captured : String × String) (m : Msg) (s : S) : S :=
  if m.turnComplete then
    { s with transcriptions := s.transcriptions ++ [captured], current := ("", "") }
  else s

/-- The audio branch of onmessage: when a payload is present and the output
context ref is non-null, schedule a new source node to start at
max(nextStartTime, currentTime), add it to the sources set, and advance
nextStartTime by the buffer duration. -/
def applyAudioChunk (clock : ℚ) (m : Msg) (s : S) : S :=
  match m.audioDuration, s.outputCtx with
  | some d, some _ =>
      let start := max s.nextStartTime clock
      { s with
          nodes := s.nodes ++ [{ start := start, stopped := false }]
          sources := s.sources ++ [s.nodes.length]
          nextStartTime := start + d }
  | _, _ => s

/-- The interrupted branch of onmessage: stop every node in the sources
set, clear the set, and reset nextStartTime to 0. -/
def applyInterrupt (m : Msg) (s : S) : S :=
  if m.interrupted then
    { s with
        nodes := mark s.sources stopNode 0 s.nodes
        sources := []
        nextStartTime := 0 }
  else s

/-- The onmessage callback: the four branches run in source order on each
received message. The clock argument is outputCtx.currentTime while the
handler runs; captured is the closure value of currentTranscription. -/
def onmessage (captured : String × String) (clock : ℚ) (m : Msg) (s : S) : S :=
  applyInterrupt m (applyAudioChunk clock m (applyTurnComplete captured m (applyTranscripts m s)))

/-- stopConversation: cancel the animation frame, close and null the
session, stop the stream tracks and null the ref, disconnect the script
processor, close both audio contexts, stop and clear the source nodes when
the output context is open, and settle to idle. The Bool records whether
session.close() was invoked (the ref was non-null). -/
def stopConversation (s : S) : S × Bool :=
  let closedSession := s.session.isSome
  let tracks :=
    match s.mediaStream with
    | some ids => mark ids (fun _ => true) 0 s.tracks
    | none => s.tracks
  let cleanup :=
    match s.outputCtx with
    | some c =>
        if c.closed then (s.nodes, s.sources)
        else (mark s.sources stopNode 0 s.nodes, ([] : List Nat))
    | none => (s.nodes, s.sources)
  ({ s with
      animationFrame := none
      session := none
      mediaStream := none
      tracks := tracks
      scriptProcessor := none
      audioCtx := none
      outputCtx := none
      nodes := cleanup.1
      sources := cleanup.2
      cs := .idle }, closedSession)

/-- Which acquisitions startConversation performed. -/
structure StartEff where
  micAcquired : Bool
  transportOpened : Bool
deriving DecidableEq

/-- startConversation: bail out unless idle; otherwise clear the
transcript hooks, acquire the microphone (micOk false models a getUserMedia
failure, which lands in the catch block: error state then teardown), create
the two audio contexts, zero nextStartTime, and open the transport whose
callbacks capture the invoking render value of currentTranscription. -/
def startConversation (nTracks : Nat) (micOk : Bool) (s : S) : S × StartEff :=
  if s.cs ≠ CState.idle then (s, ⟨false, false⟩)
  else
    let s1 := { s with cs := CState.connecting, transcriptions := [], current := ("", "") }
    if micOk then
      ({ s1 with
          mediaStream := some ((List.range nTracks).map (s.tracks.length + ·))
          tracks := s.tracks ++ List.replicate nTracks false
          audioCtx := some ⟨false⟩
          outputCtx := some ⟨false⟩
          nextStartTime := 0
          session := some ⟨s.current⟩ }, ⟨true, true⟩)
    else
      ((stopConversation { s1 with cs := CState.error }).1, ⟨false, false⟩)

/-- The onopen callback: enter listening, build the capture graph, start
the visual feedback loop. -/
def stepOpen (s : S) : S :=
  { s with cs := CState.listening, scriptProcessor := some true, animationFrame := some 0 }

/-- The events a live component reacts to. -/
inductive Event where
  | message (clock : ℚ) (m : Msg)
  | opened
  | closed
  | errored
  | ended (id : Nat)
  | userStop
deriving DecidableEq

/-- One event-handler step. Transport callbacks fire only while a session
exists; onclose is stopConversation itself; onerror sets the error state
then runs stopConversation; an ended event removes the node from the
sources set; a user stop runs stopConversation. -/
def stepEv (e : Event) (s : S) : S :=
  match e with
  | .message t m =>
      match s.session with
      | some ses => onmessage ses.captured t m s
      | none => s
  | .opened =>
      match s.session with
      | some _ => stepOpen s
      | none => s
  | .closed => (stopConversation s).1
  | .errored => (stopConversation { s with cs := CState.error }).1
  | .ended id => { s with sources := s.sources.filter (· ≠ id) }
  | .userStop => (stopConversation s).1

/-- Run a list of (clock, message) pairs through onmessage. -/
def runMsgs (captured : String × String) (evs : List (ℚ × Msg)) (s : S) : S :=
  evs.foldl (fun st e => onmessage captured e.1 e.2 st) s

/-- The start times of the nodes scheduled during a run, in order. -/
def runStarts (captured : String × String) (s : S) (evs : List (ℚ × Msg)) : List ℚ :=
  ((runMsgs captured evs s).nodes.drop s.nodes.length).map Node.start

/-- A message carrying only an audio payload of duration d. -/
def audioMsg (d : ℚ) : Msg :=
  ⟨none, none, false, some d, false⟩

/-- A message carrying only an interruption signal. -/
def interruptMsg : Msg :=
  ⟨none, none, false, none, true⟩

/-- Gapless start times from base b for chunks of the given durations. -/
def predicted : ℚ → List ℚ → List ℚ
  | _, [] => []
  | b, d :: ds => b :: predicted (b + d) ds

/-- Modelled from the spec: the alternative interruption reset policy named
in section 4.3 ("nextPlaybackTime is reset to 0 (or to current clock
time)"); identical to applyInterrupt except that nextPlaybackTime is reset
to the output clock value at the interruption. -/
def applyInterruptSpec (clock : ℚ) (m : Msg) (s : S) : S :=
  if m.interrupted then
    { s with
        nodes := mark s.sources stopNode 0 s.nodes
        sources := []
        nextStartTime := clock }
  else s

/-- Modelled from the spec: onmessage under the clock-time reset policy. -/
def onmessageSpec (captured : String × String) (clock : ℚ) (m : Msg) (s : S) : S :=
  applyInterruptSpec clock m (applyAudioChunk clock m (applyTurnComplete captured m (applyTranscripts m s)))

/-- Run a list of (clock, message) pairs through onmessageSpec. -/
def runMsgsSpec (captured : String × String) (evs : List (ℚ × Msg)) (s : S) : S :=
  evs.foldl (fun st e => onmessageSpec captured e.1 e.2 st) s

section Helpers

theorem mark_length (ids : List Nat) (f : α → α) :
    ∀ (xs : List α) (i : Nat), (mark ids f i xs).length = xs.length := by
  intro xs
  induction xs with
  | nil => intro i; rfl
  | cons x xs ih => intro i; simp [mark, ih]

theorem mark_get (ids : List Nat) (f : α → α) :
    ∀ (xs : List α) (i k : Nat) (h : k < (mark ids f i xs).length) (h' : k < xs.length),
      (mark ids f i xs).get ⟨k, h⟩ =
        if (i + k) ∈ ids then f (xs.get ⟨k, h'⟩) else xs.get ⟨k, h'⟩ := by
  intro xs
  induction xs with
  | nil => intro i k h h'; simp at h'
  | cons x xs ih =>
      intro i k h h'
      cases k with
      | zero => simp [mark]
      | succ k =>
          have hk : k < (mark ids f (i + 1) xs).length := by
            simpa [mark_length] using Nat.lt_of_succ_lt_succ h
          have hk' : k < xs.length := Nat.lt_of_succ_lt_succ h'
          have := ih (i + 1) k hk hk'
          simp only [mark, List.get_cons_succ] at this ⊢
          rw [this]
          have harith : i + 1 + k = i + (k + 1) := by omega
          rw [harith]

theorem predicted_length (ds : List ℚ) : ∀ b : ℚ, (predicted b ds).length = ds.length := by
  induction ds with
  | nil => intro b; rfl
  | cons d ds ih => intro b; simp [predicted, ih]

theorem predicted_get (ds : List ℚ) :
    ∀ (b : ℚ) (k : Nat) (h : k < (predicted b ds).length),
      (predicted b ds).get ⟨k, h⟩ = b + (ds.take k).sum := by
  induction ds with
  | nil => intro b k h; simp [predicted] at h
  | cons d ds ih =>
      intro b k h
      cases k with
      | zero => simp [predicted]
      | succ k =>
          have hk : k < (predicted (b + d) ds).length := by
            simpa [predicted] using h
          simp only [predicted, List.get_cons_succ, ih (b + d) k hk, List.take_succ_cons,
            List.sum_cons]
          ring

theorem applyTranscripts_eq (m : Msg) (s : S) :
    applyTranscripts m s = { s with current := (applyTranscripts m s).current } := by
  obtain ⟨it, ot, tc, ad, ir⟩ := m
  cases it <;> cases ot <;> rfl

@[simp] theorem applyTranscripts_nodes (m : Msg) (s : S) :
    (applyTranscripts m s).nodes = s.nodes := by
  rw [applyTranscripts_eq]

@[simp] theorem applyTranscripts_sources (m : Msg) (s : S) :
    (applyTranscripts m s).sources = s.sources := by
  rw [applyTranscripts_eq]

@[simp] theorem applyTranscripts_nextStartTime (m : Msg) (s : S) :
    (applyTranscripts m s).nextStartTime = s.nextStartTime := by
  rw [applyTranscripts_eq]

@[simp] theorem applyTranscripts_outputCtx (m : Msg) (s : S) :
    (applyTranscripts m s).outputCtx = s.outputCtx := by
  rw [applyTranscripts_eq]

@[simp] theorem applyTranscripts_transcriptions (m : Msg) (s : S) :
    (applyTranscripts m s).transcriptions = s.transcriptions := by
  rw [applyTranscripts_eq]

theorem applyTurnComplete_eq (cap : String × String) (m : Msg) (s : S) :
    applyTurnComplete cap m s =
      { s with
          transcriptions := (applyTurnComplete cap m s).transcriptions
          current := (applyTurnComplete cap m s).current } := by
  unfold applyTurnComplete
  split <;> rfl

@[simp] theorem applyTurnComplete_nodes (cap : String × String) (m : Msg) (s : S) :
    (applyTurnComplete cap m s).nodes = s.nodes := by
  rw [applyTurnComplete_eq]

@[simp] theorem applyTurnComplete_sources (cap : String × String) (m : Msg) (s : S) :
    (applyTurnComplete cap m s).sources = s.sources := by
  rw [applyTurnComplete_eq]

@[simp] theorem applyTurnComplete_nextStartTime (cap : String × String) (m : Msg) (s : S) :
    (applyTurnComplete cap m s).nextStartTime = s.nextStartTime := by
  rw [applyTurnComplete_eq]

@[simp] theorem applyTurnComplete_outputCtx (cap : String × String) (m : Msg) (s : S) :
    (applyTurnComplete cap m s).outputCtx = s.outputCtx := by
  rw [applyTurnComplete_eq]

theorem applyAudioChunk_none (t : ℚ) (m : Msg) (s : S) (h : m.audioDuration = none) :
    applyAudioChunk t m s = s := by
  unfold applyAudioChunk
  rw [h]

theorem applyAudioChunk_noCtx (t : ℚ) (m : Msg) (s : S) (h : s.outputCtx = none) :
    applyAudioChunk t m s = s := by
  unfold applyAudioChunk
  rw [h]
  cases m.audioDuration <;> rfl

theorem applyAudioChunk_some (t : ℚ) (m : Msg) (s : S) (d : ℚ) (c : Ctx)
    (hd : m.audioDuration = some d) (hc : s.outputCtx = some c) :
    applyAudioChunk t m s =
      { s with
          nodes := s.nodes ++ [{ start := max s.nextStartTime t, stopped := false }]
          sources := s.sources ++ [s.nodes.length]
          nextStartTime := max s.nextStartTime t + d } := by
  unfold applyAudioChunk
  rw [hd, hc]

@[simp] theorem applyAudioChunk_outputCtx (t : ℚ) (m : Msg) (s : S) :
    (applyAudioChunk t m s).outputCtx = s.outputCtx := by
  rcases hd : m.audioDuration with _ | d
  · rw [applyAudioChunk_none t m s hd]
  · rcases hc : s.outputCtx with _ | c
    · rw [applyAudioChunk_noCtx t m s hc, hc]
    · rw [applyAudioChunk_some t m s d c hd hc, hc]

@[simp] theorem applyAudioChunk_transcriptions (t : ℚ) (m : Msg) (s : S) :
    (applyAudioChunk t m s).transcriptions = s.transcriptions := by
  rcases hd : m.audioDuration with _ | d
  · rw [applyAudioChunk_none t m s hd]
  · rcases hc : s.outputCtx with _ | c
    · rw [applyAudioChunk_noCtx t m s hc]
    · rw [applyAudioChunk_some t m s d c hd hc]

@[simp] theorem applyAudioChunk_current (t : ℚ) (m : Msg) (s : S) :
    (applyAudioChunk t m s).current = s.current := by
  rcases hd : m.audioDuration with _ | d
  · rw [applyAudioChunk_none t m s hd]
  · rcases hc : s.outputCtx with _ | c
    · rw [applyAudioChunk_noCtx t m s hc]
    · rw [applyAudioChunk_some t m s d c hd hc]

theorem applyInterrupt_true (m : Msg) (s : S) (h : m.interrupted = true) :
    applyInterrupt m s =
      { s with
          nodes := mark s.sources stopNode 0 s.nodes
          sources := []
          nextStartTime := 0 } := by
  unfold applyInterrupt
  rw [h]
  rfl

theorem applyInterrupt_false (m : Msg) (s : S) (h : m.interrupted = false) :
    applyInterrupt m s = s := by
  unfold applyInterrupt
  rw [h]
  rfl

theorem applyInterrupt_eq (m : Msg) (s : S) :
    applyInterrupt m s =
      { s with
          nodes := (applyInterrupt m s).nodes
          sources := (applyInterrupt m s).sources
          nextStartTime := (applyInterrupt m s).nextStartTime } := by
  unfold applyInterrupt
  split <;> rfl

@[simp] theorem applyInterrupt_outputCtx (m : Msg) (s : S) :
    (applyInterrupt m s).outputCtx = s.outputCtx := by
  rw [applyInterrupt_eq]

@[simp] theorem onmessage_outputCtx (cap : String × String) (t : ℚ) (m : Msg) (s : S) :
    (onmessage cap t m s).outputCtx = s.outputCtx := by
  simp [onmessage]

theorem onmessage_audioMsg (cap : String × String) (t d : ℚ) (s : S) (c : Ctx)
    (hc : s.outputCtx = some c) :
    onmessage cap t (audioMsg d) s =
      { s with
          nodes := s.nodes ++ [{ start := max s.nextStartTime t, stopped := false }]
          sources := s.sources ++ [s.nodes.length]
          nextStartTime := max s.nextStartTime t + d } := by
  unfold onmessage
  rw [show applyTranscripts (audioMsg d) s = s from rfl,
    show applyTurnComplete cap (audioMsg d) s = s from rfl,
    applyAudioChunk_some _ _ _ d c rfl hc,
    applyInterrupt_false _ _ rfl]

@[simp] theorem stop_session (s : S) : ((stopConversation s).1).session = none := rfl

@[simp] theorem stop_mediaStream (s : S) : ((stopConversation s).1).mediaStream = none := rfl

@[simp] theorem stop_audioCtx (s : S) : ((stopConversation s).1).audioCtx = none := rfl

@[simp] theorem stop_outputCtx (s : S) : ((stopConversation s).1).outputCtx = none := rfl

@[simp] theorem stop_scriptProcessor (s : S) :
    ((stopConversation s).1).scriptProcessor = none := rfl

@[simp] theorem stop_animationFrame (s : S) :
    ((stopConversation s).1).animationFrame = none := rfl

@[simp] theorem stop_cs (s : S) : ((stopConversation s).1).cs = CState.idle := rfl

@[simp] theorem stop_nextStartTime (s : S) :
    ((stopConversation s).1).nextStartTime = s.nextStartTime := rfl

@[simp] theorem stop_closedSession (s : S) :
    (stopConversation s).2 = s.session.isSome := rfl

theorem runMsgs_gapless (cap : String × String) :
    ∀ (chunks : List (ℚ × ℚ)) (s : S) (c : Ctx), s.outputCtx = some c →
      (∀ k (h : k < chunks.length),
        (chunks.get ⟨k, h⟩).1 ≤ s.nextStartTime + ((chunks.map Prod.snd).take k).sum) →
      (runMsgs cap (chunks.map (fun p => (p.1, audioMsg p.2))) s).nodes
          = s.nodes ++ (predicted s.nextStartTime (chunks.map Prod.snd)).map
              (fun b => { start := b, stopped := false })
        ∧ (runMsgs cap (chunks.map (fun p => (p.1, audioMsg p.2))) s).nextStartTime
          = s.nextStartTime + (chunks.map Prod.snd).sum
        ∧ (runMsgs cap (chunks.map (fun p => (p.1, audioMsg p.2))) s).outputCtx
          = s.outputCtx := by
  intro chunks
  induction chunks with
  | nil => intro s c hc hk; simp [runMsgs, predicted]
  | cons p rest ih =>
      intro s c hc hk
      obtain ⟨t, d⟩ := p
      have h0 : t ≤ s.nextStartTime := by
        have := hk 0 (by simp)
        simpa using this
      have hstep : onmessage cap t (audioMsg d) s =
          { s with
              nodes := s.nodes ++ [{ start := max s.nextStartTime t, stopped := false }]
              sources := s.sources ++ [s.nodes.length]
              nextStartTime := max s.nextStartTime t + d } :=
        onmessage_audioMsg cap t d s c hc
      have hmax : max s.nextStartTime t = s.nextStartTime := max_eq_left h0
      rw [hmax] at hstep
      have hfold : runMsgs cap (((t, d) :: rest).map (fun p => (p.1, audioMsg p.2))) s
          = runMsgs cap (rest.map (fun p => (p.1, audioMsg p.2)))
              (onmessage cap t (audioMsg d) s) := by
        simp [runMsgs]
      have hrest := ih (onmessage cap t (audioMsg d) s) c
        (by rw [hstep]; exact hc)
        (by
          intro k h
          have := hk (k + 1) (by simpa using Nat.succ_lt_succ h)
          simp only [List.get_cons_succ, List.map_cons, List.take_succ_cons,
            List.sum_cons] at this
          rw [hstep]
          simp only [List.get_cons_succ] at this ⊢
          calc (rest.get ⟨k, h⟩).1
              ≤ s.nextStartTime + (d + ((rest.map Prod.snd).take k).sum) := by
                convert this using 2
            _ = s.nextStartTime + d + ((rest.map Prod.snd).take k).sum := by ring)
      obtain ⟨hn, hx, ho⟩ := hrest
      rw [hstep] at hn hx ho
      rw [hfold, hstep]
      refine ⟨?_, ?_, ?_⟩
      · rw [hn]
        simp [predicted, List.append_assoc]
      · rw [hx]
        simp only [List.map_cons, List.sum_cons]
        ring
      · rw [ho]

end Helpers

section Claims

/-- A live-ish state for concrete instances: idle component except that the
output audio context has been created and is open. -/
def sC1 : S := { initS with outputCtx := some ⟨false⟩ }

/-- C1 (amended): for chunks processed in arrival order with no
interruption, the scheduled start of chunk k equals the start of chunk 1
plus the durations of chunks 1..k-1, PROVIDED every later chunk is
processed while the output clock has not yet passed the end of the
previously scheduled audio (clock of chunk k at most start 1 plus the sum
of the first k-1 durations). The start of chunk 1 is
max(nextStartTime, clock 1). Without that arrival-rate proviso the claim
fails, see the counterexample. -/
theorem c1_gapless_playback_schedule (cap : String × String) (s : S) (c : Ctx)
    (t1 d1 : ℚ) (rest : List (ℚ × ℚ)) (hc : s.outputCtx = some c)
    (hlate : ∀ k (h : k < rest.length),
      (rest.get ⟨k, h⟩).1 ≤ max s.nextStartTime t1 + d1 + ((rest.map Prod.snd).take k).sum) :
    runStarts cap s (((t1, d1) :: rest).map (fun p => (p.1, audioMsg p.2)))
        = predicted (max s.nextStartTime t1) (d1 :: rest.map Prod.snd)
      ∧ ∀ k (h : k < (runStarts cap s (((t1, d1) :: rest).map (fun p => (p.1, audioMsg p.2)))).length),
          (runStarts cap s (((t1, d1) :: rest).map (fun p => (p.1, audioMsg p.2)))).get ⟨k, h⟩
            = max s.nextStartTime t1 + ((d1 :: rest.map Prod.snd).take k).sum := by
  have hstep : onmessage cap t1 (audioMsg d1) s =
      { s with
          nodes := s.nodes ++ [{ start := max s.nextStartTime t1, stopped := false }]
          sources := s.sources ++ [s.nodes.length]
          nextStartTime := max s.nextStartTime t1 + d1 } :=
    onmessage_audioMsg cap t1 d1 s c hc
  have hfold : runMsgs cap (((t1, d1) :: rest).map (fun p => (p.1, audioMsg p.2))) s
      = runMsgs cap (rest.map (fun p => (p.1, audioMsg p.2)))
          (onmessage cap t1 (audioMsg d1) s) := by
    simp [runMsgs]
  have hrest := runMsgs_gapless cap rest (onmessage cap t1 (audioMsg d1) s) c
    (by rw [hstep]; exact hc)
    (by
      intro k h
      rw [hstep]
      exact hlate k h)
  obtain ⟨hn, hx, ho⟩ := hrest
  rw [hstep] at hn
  have hmain : runStarts cap s (((t1, d1) :: rest).map (fun p => (p.1, audioMsg p.2)))
      = predicted (max s.nextStartTime t1) (d1 :: rest.map Prod.snd) := by
    rw [runStarts, hfold, hstep] at *
    rw [hn]
    simp only [predicted, List.map_cons]
    rw [show (s.nodes ++ [{ start := max s.nextStartTime t1, stopped := false }]) ++
          (predicted (max s.nextStartTime t1 + d1) (rest.map Prod.snd)).map
            (fun b => { start := b, stopped := false })
        = s.nodes ++ ({ start := max s.nextStartTime t1, stopped := false } ::
            (predicted (max s.nextStartTime t1 + d1) (rest.map Prod.snd)).map
              (fun b => { start := b, stopped := false })) from by simp,
      List.drop_left]
    simp only [List.map_cons, List.map_map]
    rw [show Node.start ∘ (fun b => ({ start := b, stopped := false } : Node)) = id from rfl,
      List.map_id]
  refine ⟨hmain, ?_⟩
  intro k h
  rw [List.get_of_eq hmain ⟨k, h⟩]
  exact predicted_get _ _ _ _

/-- Witness for C1: two chunks of durations 1 and 2, the second processed
at clock 1 (exactly when the first ends): the starts are gapless. -/
theorem c1_gapless_playback_schedule_witness :
    sC1.outputCtx = some ⟨false⟩
    ∧ runStarts ("", "") sC1 [((0 : ℚ), audioMsg 1), ((1 : ℚ), audioMsg 2)]
        = predicted 0 [1, 2] := by
  refine ⟨rfl, ?_⟩
  have h := (c1_gapless_playback_schedule ("", "") sC1 ⟨false⟩ 0 1 [(1, 2)] rfl
    (by
      intro k hk
      have hk0 : k = 0 := by simpa using hk
      subst hk0
      norm_num [sC1, initS])).1
  simpa [sC1, initS] using h

/-- Counterexample to C1 as stated: chunk arrival times are NOT irrelevant.
Two chunks of duration 1, the second processed at clock 5 (after the first
finished playing): the code schedules it at 5, not at start 1 plus d 1 = 1,
so the start times are [0, 5], not the gapless [0, 1]. -/
theorem c1_counterexample :
    runStarts ("", "") sC1 [((0 : ℚ), audioMsg 1), ((5 : ℚ), audioMsg 1)] = [0, 5]
    ∧ runStarts ("", "") sC1 [((0 : ℚ), audioMsg 1), ((5 : ℚ), audioMsg 1)]
        ≠ predicted 0 [1, 1] := by
  norm_num [runStarts, runMsgs, onmessage, applyInterrupt, applyAudioChunk,
    applyTurnComplete, applyTranscripts, sC1, initS, audioMsg, predicted]

/-- C6: calling start while the state is not idle returns before doing
anything: no microphone acquisition, no transport open, no state change. -/
theorem c6_start_guard (s : S) (n : Nat) (micOk : Bool) (h : s.cs ≠ CState.idle) :
    startConversation n micOk s = (s, ⟨false, false⟩) := by
  unfold startConversation
  rw [if_pos h]

/-- A state in the listening phase, for the C6 witness. -/
def sC6 : S := { initS with cs := CState.listening }

/-- Witness for C6 at a concrete listening state. -/
theorem c6_start_guard_witness :
    sC6.cs ≠ CState.idle ∧ startConversation 1 true sC6 = (sC6, ⟨false, false⟩) :=
  ⟨by decide, c6_start_guard sC6 1 true (by decide)⟩

/-- C7: the outbound frame holds each captured sample linearly scaled by
32768 and converted by the Int16Array assignment conversion: truncation
toward zero followed by silent reduction modulo 2 ^ 16 into the signed
16-bit range, with no clamping (sample 1 wraps to -32768 and sample 3/2
wraps to -16384 where clamping would give 32767); the frame is tagged
audio/pcm;rate=16000. -/
theorem c7_pcm_conversion :
    ∀ data : List ℚ,
      (createBlob data).mimeType = "audio/pcm;rate=16000"
      ∧ (createBlob data).data = data.map (fun v => jsToInt16 (v * 32768))
      ∧ (∀ v : ℚ, -32768 ≤ jsToInt16 v ∧ jsToInt16 v < 32768
          ∧ jsToInt16 v % 65536 = jsTrunc v % 65536)
      ∧ jsToInt16 ((3 / 2 : ℚ) * 32768) = -16384
      ∧ jsToInt16 ((1 : ℚ) * 32768) = -32768 := by
  intro data
  refine ⟨rfl, rfl, ?_, ?_, ?_⟩
  · intro v
    simp only [jsToInt16]
    have h1 : 0 ≤ jsTrunc v % 65536 := Int.emod_nonneg _ (by norm_num)
    have h2 : jsTrunc v % 65536 < 65536 := Int.emod_lt_of_pos _ (by norm_num)
    split_ifs with h
    · exact ⟨by omega, h, by omega⟩
    · exact ⟨by omega, by omega, by omega⟩
  · norm_num [jsToInt16, jsTrunc]
  · norm_num [jsToInt16, jsTrunc]

/-- C8: the remote close handler IS stopConversation, teardown relinquishes
the session handle, and a re-entrant teardown (triggered by the deferred
session.close of the first one) performs no second transport close. -/
theorem c8_remote_close_no_recursion (s : S) :
    stepEv Event.closed s = (stopConversation s).1
    ∧ ((stopConversation s).1).session = none
    ∧ (stopConversation (stopConversation s).1).2 = false := by
  refine ⟨rfl, rfl, ?_⟩
  simp

/-- C2: an interrupted message stops every node referenced from the
active sources set, clears the set, and resets nextStartTime to 0, so the
next audio chunk (processed at a non-negative clock t2) is scheduled to
start exactly at t2 — at or after the current output clock, never at the
stale pre-interruption offset. -/
theorem c2_interrupt_stops_and_resets (cap : String × String) (t : ℚ) (m : Msg) (s : S)
    (hint : m.interrupted = true) (hnoa : m.audioDuration = none) :
    (onmessage cap t m s).sources = []
    ∧ (onmessage cap t m s).nextStartTime = 0
    ∧ (onmessage cap t m s).nodes.length = s.nodes.length
    ∧ (∀ k (h : k < (onmessage cap t m s).nodes.length), k ∈ s.sources →
        ((onmessage cap t m s).nodes.get ⟨k, h⟩).stopped = true)
    ∧ (∀ (t2 d : ℚ) (m2 : Msg) (c : Ctx), s.outputCtx = some c → 0 ≤ t2 →
        m2.audioDuration = some d → m2.interrupted = false →
        (onmessage cap t2 m2 (onmessage cap t m s)).nodes
          = (onmessage cap t m s).nodes ++ [{ start := t2, stopped := false }]) := by
  have h1 : onmessage cap t m s =
      { applyTurnComplete cap m (applyTranscripts m s) with
          nodes := mark s.sources stopNode 0 s.nodes
          sources := []
          nextStartTime := 0 } := by
    rw [onmessage, applyAudioChunk_none _ _ _ hnoa, applyInterrupt_true _ _ hint]
    simp
  refine ⟨by rw [h1], by rw [h1], by rw [h1]; simp [mark_length], ?_, ?_⟩
  · intro k h hk
    have hn : (onmessage cap t m s).nodes = mark s.sources stopNode 0 s.nodes := by rw [h1]
    rw [List.get_of_eq hn ⟨k, h⟩]
    have h' : k < s.nodes.length := by
      have := h
      rw [h1] at this
      simpa [mark_length] using this
    have hg := mark_get s.sources stopNode s.nodes 0 k (by simpa [mark_length] using h') h'
    simp only [Nat.zero_add] at hg
    rw [hg, if_pos hk]
    rfl
  · intro t2 d m2 c hc ht2 hd hint2
    have hctx2 : (applyTurnComplete cap m2 (applyTranscripts m2 (onmessage cap t m s))).outputCtx
        = some c := by simp [hc]
    rw [show onmessage cap t2 m2 (onmessage cap t m s)
        = applyInterrupt m2 (applyAudioChunk t2 m2
            (applyTurnComplete cap m2 (applyTranscripts m2 (onmessage cap t m s)))) from rfl,
      applyInterrupt_false _ _ hint2,
      applyAudioChunk_some _ _ _ d c hd hctx2]
    have hnx : (applyTurnComplete cap m2 (applyTranscripts m2 (onmessage cap t m s))).nextStartTime
        = 0 := by
      simp only [applyTurnComplete_nextStartTime, applyTranscripts_nextStartTime]
      rw [h1]
    simp only [hnx, applyTurnComplete_nodes, applyTranscripts_nodes]
    rw [max_eq_right ht2]

/-- A populated live state for concrete witnesses: one active source node,
one media track, open contexts, a session. -/
def sLive : S :=
  { cs := CState.listening
    transcriptions := []
    current := ("", "")
    session := some ⟨("", "")⟩
    mediaStream := some [0]
    audioCtx := some ⟨false⟩
    scriptProcessor := some true
    outputCtx := some ⟨false⟩
    nextStartTime := 7
    sources := [0]
    animationFrame := some 1
    tracks := [false]
    nodes := [{ start := 3, stopped := false }] }

/-- Witness for C2 at a concrete live state with one scheduled node. -/
theorem c2_interrupt_stops_and_resets_witness :
    interruptMsg.interrupted = true ∧ interruptMsg.audioDuration = none
    ∧ (onmessage ("", "") 4 interruptMsg sLive).sources = []
    ∧ (onmessage ("", "") 4 interruptMsg sLive).nextStartTime = 0 := by
  have h := c2_interrupt_stops_and_resets ("", "") 4 interruptMsg sLive rfl rfl
  exact ⟨rfl, rfl, h.1, h.2.1⟩

/-- Events whose handler is one of the steps C3 quantifies over, carrying
no interruption flag; audio durations are those of decoded buffers, hence
non-negative. -/
def nonInterrupting (e : Event) : Prop :=
  match e with
  | .message _ m => m.interrupted = false ∧ ∀ d, m.audioDuration = some d → 0 ≤ d
  | _ => True

/-- C3: across every event-handler step that is not an interrupted-event
reset — chunk scheduling, transcripts, turn completion, natural playback
end, open, close, error, user stop — nextStartTime never decreases. -/
theorem c3_nextStartTime_monotone (s : S) (e : Event) (he : nonInterrupting e) :
    s.nextStartTime ≤ (stepEv e s).nextStartTime := by
  cases e with
  | message t m =>
      obtain ⟨hint, hd⟩ := he
      cases hs : s.session with
      | none => simp [stepEv, hs]
      | some ses =>
          simp only [stepEv, hs]
          rw [onmessage, applyInterrupt_false _ _ hint]
          rcases had : m.audioDuration with _ | d
          · rw [applyAudioChunk_none _ _ _ had]
            simp
          · rcases hoc : (applyTurnComplete ses.captured m (applyTranscripts m s)).outputCtx
             with _ | c
            · rw [applyAudioChunk_noCtx _ _ _ hoc]
              simp
            · rw [applyAudioChunk_some _ _ _ d c had hoc]
              simp only [applyTurnComplete_nextStartTime, applyTranscripts_nextStartTime]
              have h0 := hd d had
              have hle : s.nextStartTime ≤ max s.nextStartTime t := le_max_left _ _
              linarith
  | opened => cases hs : s.session <;> simp [stepEv, hs, stepOpen]
  | closed => simp [stepEv]
  | errored => simp [stepEv]
  | ended id => simp [stepEv]
  | userStop => simp [stepEv]

/-- Witness for C3: an audio chunk of duration 1 processed at clock 2 in a
live state with nextStartTime 7 keeps nextStartTime non-decreasing. -/
theorem c3_nextStartTime_monotone_witness :
    nonInterrupting (Event.message 2 (audioMsg 1))
    ∧ sLive.nextStartTime ≤ (stepEv (Event.message 2 (audioMsg 1)) sLive).nextStartTime := by
  have he : nonInterrupting (Event.message 2 (audioMsg 1)) := by
    refine ⟨rfl, ?_⟩
    intro d h
    simp only [audioMsg, Option.some.injEq] at h
    rw [← h]
    norm_num
  exact ⟨he, c3_nextStartTime_monotone sLive (Event.message 2 (audioMsg 1)) he⟩

/-- States whose output-context and sources references are coherent: a
null output context means no tracked sources (sources are only ever added
under a non-null context and are cleared whenever it is nulled), and a
non-null context ref is never already closed (the only close also nulls
the ref). Holds initially and is preserved by every step. -/
def wfOut (s : S) : Prop :=
  (s.outputCtx = none → s.sources = [])
  ∧ ∀ c, s.outputCtx = some c → c.closed = false

theorem stop_sources_empty (s : S) (hwf : wfOut s) :
    ((stopConversation s).1).sources = [] := by
  obtain ⟨h1, h2⟩ := hwf
  rcases hoc : s.outputCtx with _ | c
  · simp [stopConversation, hoc, h1 hoc]
  · simp [stopConversation, hoc, h2 c hoc]

theorem stop_tracks_some (s : S) (ids : List Nat) (h : s.mediaStream = some ids) :
    ((stopConversation s).1).tracks = mark ids (fun _ => true) 0 s.tracks := by
  simp [stopConversation, h]

theorem stop_tracks_none (s : S) (h : s.mediaStream = none) :
    ((stopConversation s).1).tracks = s.tracks := by
  simp [stopConversation, h]

theorem stop_stop (s : S) :
    (stopConversation (stopConversation s).1).1 = (stopConversation s).1 := rfl

theorem stop_release (s : S) (hwf : wfOut s) :
    ((stopConversation s).1).sources = []
    ∧ ((stopConversation s).1).tracks.length = s.tracks.length
    ∧ ∀ ids, s.mediaStream = some ids →
        ∀ k (h : k < ((stopConversation s).1).tracks.length), k ∈ ids →
          ((stopConversation s).1).tracks.get ⟨k, h⟩ = true := by
  refine ⟨stop_sources_empty s hwf, ?_, ?_⟩
  · rcases hms : s.mediaStream with _ | ids
    · rw [stop_tracks_none s hms]
    · rw [stop_tracks_some s ids hms]
      exact mark_length ids _ s.tracks 0
  · intro ids hms k h hk
    rw [List.get_of_eq (stop_tracks_some s ids hms) ⟨k, h⟩]
    have h' : k < s.tracks.length := by
      have := h
      rw [stop_tracks_some s ids hms] at this
      simpa [mark_length] using this
    have hg := mark_get ids (fun _ => true) s.tracks 0 k
      (by simpa [mark_length] using h') h'
    simp only [Nat.zero_add] at hg
    rw [hg, if_pos hk]

theorem wfOut_stop (s : S) (hwf : wfOut s) : wfOut ((stopConversation s).1) :=
  ⟨fun _ => stop_sources_empty s hwf, fun c hc => by simp at hc⟩

theorem wfOut_onmessage (cap : String × String) (t : ℚ) (m : Msg) (s : S) (hwf : wfOut s) :
    wfOut (onmessage cap t m s) := by
  constructor
  · intro h
    rw [onmessage_outputCtx] at h
    cases hirr : m.interrupted with
    | true => rw [onmessage, applyInterrupt_true _ _ hirr]
    | false =>
        rw [onmessage, applyInterrupt_false _ _ hirr,
          applyAudioChunk_noCtx _ _ _ (by simp [h])]
        simp [hwf.1 h]
  · intro c hc
    rw [onmessage_outputCtx] at hc
    exact hwf.2 c hc

theorem wfOut_initS : wfOut initS :=
  ⟨fun _ => rfl, fun c hc => by simp [initS] at hc⟩

/-- wfOut is an invariant of every event-handler step. -/
theorem wfOut_stepEv (s : S) (e : Event) (hwf : wfOut s) : wfOut (stepEv e s) := by
  cases e with
  | message t m =>
      cases hs : s.session with
      | none => simpa [stepEv, hs] using hwf
      | some ses =>
          simp only [stepEv, hs]
          exact wfOut_onmessage _ _ _ _ hwf
  | opened =>
      cases hs : s.session with
      | none => simpa [stepEv, hs] using hwf
      | some ses =>
          simp only [stepEv, hs]
          exact ⟨hwf.1, hwf.2⟩
  | closed => exact wfOut_stop s hwf
  | errored => exact wfOut_stop { s with cs := CState.error } hwf
  | ended id =>
      refine ⟨?_, hwf.2⟩
      intro h
      have := hwf.1 h
      simp [stepEv, this]
  | userStop => exact wfOut_stop s hwf

/-- wfOut is preserved by startConversation. -/
theorem wfOut_start (n : Nat) (micOk : Bool) (s : S) (hwf : wfOut s) :
    wfOut ((startConversation n micOk s).1) := by
  unfold startConversation
  split
  · exact hwf
  · split
    · refine ⟨?_, ?_⟩
      · intro h
        simp at h
      · intro c hc
        have : Ctx.mk false = c := by simpa using hc
        rw [← this]
    · exact wfOut_stop _ hwf

/-- C4: teardown is idempotent and total — a second stopConversation
changes nothing and performs no transport close — and after it every
resource reference is null and the active-sources set is empty. -/
theorem c4_stop_idempotent (s : S) (hwf : wfOut s) :
    (stopConversation (stopConversation s).1).1 = (stopConversation s).1
    ∧ (stopConversation (stopConversation s).1).2 = false
    ∧ ((stopConversation s).1).sources = []
    ∧ ((stopConversation s).1).session = none
    ∧ ((stopConversation s).1).mediaStream = none
    ∧ ((stopConversation s).1).audioCtx = none
    ∧ ((stopConversation s).1).outputCtx = none
    ∧ ((stopConversation s).1).scriptProcessor = none
    ∧ ((stopConversation s).1).animationFrame = none :=
  ⟨stop_stop s, by simp, stop_sources_empty s hwf, rfl, rfl, rfl, rfl, rfl, rfl⟩

theorem wfOut_sLive : wfOut sLive := by
  constructor
  · intro h
    simp [sLive] at h
  · intro c h
    have hc : Ctx.mk false = c := by simpa [sLive] using h
    rw [← hc]

/-- Witness for C4 at a concrete fully populated live state. -/
theorem c4_stop_idempotent_witness :
    wfOut sLive
    ∧ (stopConversation (stopConversation sLive).1).1 = (stopConversation sLive).1
    ∧ ((stopConversation sLive).1).sources = [] :=
  ⟨wfOut_sLive, (c4_stop_idempotent sLive wfOut_sLive).1,
    (c4_stop_idempotent sLive wfOut_sLive).2.2.1⟩

/-- C5: after teardown by remote close, error, or user stop, the
active-sources set is empty and every track of the microphone stream has
been stopped (the track heap keeps its length; each track referenced by
the stream is flagged stopped). -/
theorem c5_teardown_releases (s : S) (e : Event) (hwf : wfOut s)
    (hte : e = Event.closed ∨ e = Event.errored ∨ e = Event.userStop) :
    (stepEv e s).sources = []
    ∧ (stepEv e s).tracks.length = s.tracks.length
    ∧ ∀ ids, s.mediaStream = some ids →
        ∀ k (h : k < (stepEv e s).tracks.length), k ∈ ids →
          (stepEv e s).tracks.get ⟨k, h⟩ = true := by
  rcases hte with rfl | rfl | rfl
  · exact stop_release s hwf
  · exact stop_release { s with cs := CState.error } hwf
  · exact stop_release s hwf

/-- Witness for C5: user stop at the concrete live state. -/
theorem c5_teardown_releases_witness :
    wfOut sLive
    ∧ (stepEv Event.userStop sLive).sources = []
    ∧ (stepEv Event.userStop sLive).tracks.length = sLive.tracks.length := by
  have h := c5_teardown_releases sLive Event.userStop wfOut_sLive (Or.inr (Or.inr rfl))
  exact ⟨wfOut_sLive, h.1, h.2.1⟩

/-- C9 is violated by the code: the turnComplete branch appends the value
of currentTranscription captured by the connect-time closure (empty at a
fresh start), not the pending pair accumulated through the functional
setState updates. Trace: fresh start, open, a partial input transcription
"hi", then turnComplete. The pending pair before the turn completes is
("hi", ""), yet the log receives ("", "") — and the pending pair is then
reset. The log does grow by exactly one entry and the reset does happen;
only the appended value diverges from the claim. -/
theorem c9_stale_transcript_append :
    (stepEv (Event.message 0 ⟨some "hi", none, false, none, false⟩)
        (stepEv Event.opened (startConversation 1 true initS).1)).current = ("hi", "")
    ∧ (stepEv (Event.message 0 ⟨none, none, true, none, false⟩)
        (stepEv (Event.message 0 ⟨some "hi", none, false, none, false⟩)
          (stepEv Event.opened (startConversation 1 true initS).1))).transcriptions
        = [("", "")]
    ∧ (stepEv (Event.message 0 ⟨none, none, true, none, false⟩)
        (stepEv (Event.message 0 ⟨some "hi", none, false, none, false⟩)
          (stepEv Event.opened (startConversation 1 true initS).1))).current = ("", "")
    ∧ [(("" : String), ("" : String))] ≠ [(("hi" : String), ("" : String))] :=
  ⟨rfl, rfl, rfl, by decide⟩

theorem applyTranscripts_setNext (m : Msg) (s : S) (nb : ℚ) :
    applyTranscripts m { s with nextStartTime := nb }
      = { applyTranscripts m s with nextStartTime := nb } := by
  obtain ⟨it, ot, tc, ad, ir⟩ := m
  cases it <;> cases ot <;> rfl

theorem applyTurnComplete_setNext (cap : String × String) (m : Msg) (s : S) (nb : ℚ) :
    applyTurnComplete cap m { s with nextStartTime := nb }
      = { applyTurnComplete cap m s with nextStartTime := nb } := by
  obtain ⟨it, ot, tc, ad, ir⟩ := m
  cases tc <;> rfl

theorem applyInterruptSpec_true (t : ℚ) (m : Msg) (s : S) (h : m.interrupted = true) :
    applyInterruptSpec t m s =
      { s with
          nodes := mark s.sources stopNode 0 s.nodes
          sources := []
          nextStartTime := t } := by
  unfold applyInterruptSpec
  rw [h]
  rfl

theorem applyInterruptSpec_false (t : ℚ) (m : Msg) (s : S) (h : m.interrupted = false) :
    applyInterruptSpec t m s = s := by
  unfold applyInterruptSpec
  rw [h]
  rfl

theorem interruptPair (t : ℚ) (m : Msg) (P : S) (q : ℚ) (ht : 0 ≤ t)
    (hq : P.nextStartTime = q ∨ (P.nextStartTime = 0 ∧ 0 ≤ q ∧ q ≤ t)) :
    ∃ nb' : ℚ,
      applyInterruptSpec t m { P with nextStartTime := q }
        = { applyInterrupt m P with nextStartTime := nb' }
      ∧ ((applyInterrupt m P).nextStartTime = nb'
         ∨ ((applyInterrupt m P).nextStartTime = 0 ∧ 0 ≤ nb' ∧ nb' ≤ t)) := by
  cases hirr : m.interrupted with
  | false =>
      rw [applyInterrupt_false _ _ hirr, applyInterruptSpec_false _ _ _ hirr]
      exact ⟨q, rfl, hq⟩
  | true =>
      rw [applyInterrupt_true _ _ hirr, applyInterruptSpec_true _ _ _ hirr]
      exact ⟨t, rfl, Or.inr ⟨rfl, ht, le_refl t⟩⟩

theorem relNext_step (cap : String × String) (c t : ℚ) (m : Msg) (a : S) (nb : ℚ)
    (hc : 0 ≤ c) (hct : c ≤ t)
    (hn : a.nextStartTime = nb ∨ (a.nextStartTime = 0 ∧ 0 ≤ nb ∧ nb ≤ c)) :
    ∃ nb' : ℚ,
      onmessageSpec cap t m { a with nextStartTime := nb }
        = { onmessage cap t m a with nextStartTime := nb' }
      ∧ ((onmessage cap t m a).nextStartTime = nb'
         ∨ ((onmessage cap t m a).nextStartTime = 0 ∧ 0 ≤ nb' ∧ nb' ≤ t)) := by
  have hA : applyTurnComplete cap m (applyTranscripts m { a with nextStartTime := nb })
      = { applyTurnComplete cap m (applyTranscripts m a) with nextStartTime := nb } := by
    rw [applyTranscripts_setNext, applyTurnComplete_setNext]
  set A := applyTurnComplete cap m (applyTranscripts m a) with hAdef
  have hAnext : A.nextStartTime = a.nextStartTime := by
    simp [hAdef]
  have hAq : A.nextStartTime = nb ∨ (A.nextStartTime = 0 ∧ 0 ≤ nb ∧ nb ≤ t) := by
    rcases hn with h | ⟨h0, hnb0, hnbc⟩
    · exact Or.inl (by rw [hAnext, h])
    · exact Or.inr ⟨by rw [hAnext, h0], hnb0, hnbc.trans hct⟩
  rcases had : m.audioDuration with _ | d
  · have hL : applyAudioChunk t m A = A := applyAudioChunk_none _ _ _ had
    have hR : applyAudioChunk t m { A with nextStartTime := nb }
        = { A with nextStartTime := nb } := applyAudioChunk_none _ _ _ had
    have hip := interruptPair t m A nb (hc.trans hct) hAq
    rw [show onmessageSpec cap t m { a with nextStartTime := nb }
        = applyInterruptSpec t m (applyAudioChunk t m
            (applyTurnComplete cap m (applyTranscripts m { a with nextStartTime := nb })))
      from rfl, hA, hR]
    rw [show onmessage cap t m a = applyInterrupt m (applyAudioChunk t m A) from rfl, hL]
    exact hip
  · rcases hoc : A.outputCtx with _ | c0
    · have hL : applyAudioChunk t m A = A := applyAudioChunk_noCtx _ _ _ hoc
      have hR : applyAudioChunk t m { A with nextStartTime := nb }
          = { A with nextStartTime := nb } := applyAudioChunk_noCtx _ _ _ hoc
      have hip := interruptPair t m A nb (hc.trans hct) hAq
      rw [show onmessageSpec cap t m { a with nextStartTime := nb }
          = applyInterruptSpec t m (applyAudioChunk t m
              (applyTurnComplete cap m (applyTranscripts m { a with nextStartTime := nb })))
        from rfl, hA, hR]
      rw [show onmessage cap t m a = applyInterrupt m (applyAudioChunk t m A) from rfl, hL]
      exact hip
    · have meq : max A.nextStartTime t = max nb t := by
        rcases hAq with h | ⟨h0, hnb0, hnbt⟩
        · rw [h]
        · rw [h0, max_eq_right (hc.trans hct), max_eq_right hnbt]
      have hRa : applyAudioChunk t m { A with nextStartTime := nb }
          = applyAudioChunk t m A := by
        rw [applyAudioChunk_some t m { A with nextStartTime := nb } d c0 had hoc,
          applyAudioChunk_some t m A d c0 had hoc, meq]
      have hip := interruptPair t m (applyAudioChunk t m A)
        ((applyAudioChunk t m A).nextStartTime) (hc.trans hct) (Or.inl rfl)
      rw [show onmessageSpec cap t m { a with nextStartTime := nb }
          = applyInterruptSpec t m (applyAudioChunk t m
              (applyTurnComplete cap m (applyTranscripts m { a with nextStartTime := nb })))
        from rfl, hA, hRa]
      rw [show onmessage cap t m a = applyInterrupt m (applyAudioChunk t m A) from rfl]
      exact hip

theorem runMsgs_relNext (cap : String × String) :
    ∀ (evs : List (ℚ × Msg)) (a : S) (nb c : ℚ), 0 ≤ c →
      (∀ e ∈ evs, c ≤ e.1) → List.Pairwise (fun x y => x.1 ≤ y.1) evs →
      (a.nextStartTime = nb ∨ (a.nextStartTime = 0 ∧ 0 ≤ nb ∧ nb ≤ c)) →
      ∃ nb' : ℚ, runMsgsSpec cap evs { a with nextStartTime := nb }
          = { runMsgs cap evs a with nextStartTime := nb' } := by
  intro evs
  induction evs with
  | nil =>
      intro a nb c hc hlb hpw hn
      exact ⟨nb, rfl⟩
  | cons e rest ih =>
      intro a nb c hc hlb hpw hn
      obtain ⟨t, m⟩ := e
      have hct : c ≤ t := hlb (t, m) (List.mem_cons_self _ _)
      obtain ⟨hhead, htail⟩ := List.pairwise_cons.mp hpw
      obtain ⟨nb1, heq, hrel⟩ := relNext_step cap c t m a nb hc hct hn
      obtain ⟨nb', h'⟩ := ih (onmessage cap t m a) nb1 t (hc.trans hct)
        (fun e he => hhead e he) htail hrel
      refine ⟨nb', ?_⟩
      have hfoldSpec : runMsgsSpec cap ((t, m) :: rest) { a with nextStartTime := nb }
          = runMsgsSpec cap rest (onmessageSpec cap t m { a with nextStartTime := nb }) := by
        simp [runMsgsSpec]
      have hfold : runMsgs cap ((t, m) :: rest) a
          = runMsgs cap rest (onmessage cap t m a) := by
        simp [runMsgs]
      rw [hfoldSpec, heq, hfold]
      exact h'

/-- C10: starting from an interruption reset, the code (reset to 0) and
the spec alternative (reset to the clock value t0 at the interruption)
produce identical runs apart from the pending nextStartTime value: with a
non-negative, non-decreasing clock, every later chunk gets the same
scheduled start (the node and sources lists coincide), and the transcript
state coincides too. Subsequent interruptions inside the run again follow
each policy. -/
theorem c10_reset_policy_equivalence (cap : String × String) (s : S) (t0 : ℚ)
    (evs : List (ℚ × Msg)) (h0 : 0 ≤ t0) (hlb : ∀ e ∈ evs, t0 ≤ e.1)
    (hpw : List.Pairwise (fun x y => x.1 ≤ y.1) evs) :
    (runMsgsSpec cap evs { s with nextStartTime := t0 }).nodes
      = (runMsgs cap evs { s with nextStartTime := 0 }).nodes
    ∧ (runMsgsSpec cap evs { s with nextStartTime := t0 }).sources
      = (runMsgs cap evs { s with nextStartTime := 0 }).sources
    ∧ (runMsgsSpec cap evs { s with nextStartTime := t0 }).transcriptions
      = (runMsgs cap evs { s with nextStartTime := 0 }).transcriptions := by
  obtain ⟨nb', h⟩ := runMsgs_relNext cap evs { s with nextStartTime := 0 } t0 t0 h0 hlb hpw
    (Or.inr ⟨rfl, h0, le_refl t0⟩)
  have h' : runMsgsSpec cap evs { s with nextStartTime := t0 }
      = { runMsgs cap evs { s with nextStartTime := 0 } with nextStartTime := nb' } := h
  refine ⟨?_, ?_, ?_⟩ <;> rw [h']

/-- Witness for C10: a reset clock value 2, then an interruption at clock
3 and a chunk at clock 4; both policies schedule the same nodes. -/
theorem c10_reset_policy_equivalence_witness :
    (0 : ℚ) ≤ 2
    ∧ (runMsgsSpec ("", "") [((3 : ℚ), interruptMsg), ((4 : ℚ), audioMsg 1)]
          { sC1 with nextStartTime := 2 }).nodes
        = (runMsgs ("", "") [((3 : ℚ), interruptMsg), ((4 : ℚ), audioMsg 1)]
            { sC1 with nextStartTime := 0 }).nodes := by
  refine ⟨by norm_num, ?_⟩
  exact (c10_reset_policy_equivalence ("", "") sC1 2
    [((3 : ℚ), interruptMsg), ((4 : ℚ), audioMsg 1)] (by norm_num)
    (by
      intro e he
      simp only [List.mem_cons, List.not_mem_nil, or_false] at he
      rcases he with rfl | rfl <;> norm_num)
    (by
      constructor
      · intro y hy
        simp only [List.mem_cons, List.not_mem_nil, or_false] at hy
        subst hy
        norm_num
      · simp)).1

end Claims

end LiveConv
